import Mathlib

/-!
Verification development for the Ibex benchmarking harness
(benchmarking/bench_python.py, benchmarking/print_table.py,
benchmarking/bench_quant.py, tools/bench_tf.py, tools/bench_polars.py).

The Python sources are shallowly embedded: pure computations become Lean
functions over ℚ (Python floats are idealised as exact rationals), subprocess
invocations become an oracle `ℕ → RunOut` supplying the elapsed time, exit
code and captured output of each successive run, exceptions become
`Except String`, and the filesystem is abstracted away (script files written
before a run carry no timing information of their own).
-/

namespace TSV

/-- Decimal digit to its ASCII character ('0'..'9' for d < 10). -/
def digitChar (d : ℕ) : Char := Char.ofNat (48 + d)

/-- Parse one character as a decimal digit, mirroring what Python's
`float()` accepts inside a plain fixed-point literal. -/
def digitVal? (c : Char) : Option ℕ :=
  if 48 ≤ c.toNat ∧ c.toNat ≤ 57 then some (c.toNat - 48) else none

/-- Little-endian decimal digits of `n`, fuel-based so that it is structural
(the fuel is always instantiated with `n` itself). -/
def natDigitsRev : ℕ → ℕ → List ℕ
  | 0, _ => []
  | fuel + 1, n => if n = 0 then [] else n % 10 :: natDigitsRev fuel (n / 10)

/-- Decimal rendering of a natural number, as Python's `str` produces it. -/
def natChars (n : ℕ) : List Char :=
  if n = 0 then ['0'] else (natDigitsRev n n).reverse.map digitChar

/-- String form of a natural number. -/
def natStr (n : ℕ) : String := String.mk (natChars n)

/-- Round-half-even of a rational to an integer: the tie-breaking rule used
by Python's fixed-point float formatting (`f"{x:.3f}"` on the exact value). -/
def rhe (q : ℚ) : ℤ :=
  let f := ⌊q⌋
  let r := q - f
  if r < 1 / 2 then f
  else if 1 / 2 < r then f + 1
  else if 2 ∣ f then f else f + 1

/-- The rational actually denoted by the 3-decimal rendering of `q`. -/
def round3 (q : ℚ) : ℚ := (rhe (1000 * q) : ℚ) / 1000

/-- The three fractional digits of `f"{x:.3f}"` (`f < 1000` in use). -/
def pad3 (f : ℕ) : List Char :=
  [digitChar (f / 100), digitChar (f / 10 % 10), digitChar (f % 10)]

/-- Character sequence of `f"{x:.3f}"`: optional sign, integer part,
a dot, then exactly three fractional digits. -/
def fmt3Chars (q : ℚ) : List Char :=
  let n : ℤ := rhe (1000 * q)
  let m : ℕ := n.natAbs
  let body := natChars (m / 1000) ++ '.' :: pad3 (m % 1000)
  if n < 0 then '-' :: body else body

/-- Python's `f"{x:.3f}"` over the exact rational value. -/
def fmt3 (q : ℚ) : String := String.mk (fmt3Chars q)

/-- Greedily consume decimal digits, returning the accumulated value, the
number of digits consumed, and the unconsumed remainder. -/
def parseNatAcc : List Char → ℕ → ℕ × ℕ × List Char
  | [], acc => (acc, 0, [])
  | c :: cs, acc =>
    match digitVal? c with
    | some d =>
      let t := parseNatAcc cs (10 * acc + d)
      (t.1, t.2.1 + 1, t.2.2)
    | none => (acc, 0, c :: cs)

/-- Unsigned fixed-point parse: digits, optionally a dot and more digits,
with at least one digit overall and no trailing garbage.  This is the
fragment of Python's `float()` grammar that the serializer can emit; any
other input is a parse failure (Python: `ValueError`). -/
def parseUFloat (cs : List Char) : Option ℚ :=
  let t1 := parseNatAcc cs 0
  match t1.2.2 with
  | '.' :: rest2 =>
    let t2 := parseNatAcc rest2 0
    if t2.2.2 = [] ∧ 0 < t1.2.1 + t2.2.1 then
      some ((t1.1 : ℚ) + (t2.1 : ℚ) / 10 ^ t2.2.1)
    else none
  | [] => if 0 < t1.2.1 then some ((t1.1 : ℚ)) else none
  | _ => none

/-- Signed parse of a fixed-point literal, modelling `float(cell)` on the
cells this harness writes. -/
def parseFloatChars : List Char → Option ℚ
  | [] => none
  | c :: cs => if c = '-' then (parseUFloat cs).map (fun x => -x) else parseUFloat (c :: cs)

/-- `float(s)` on a serialized `avg_ms` cell. -/
def parseFloat (s : String) : Option ℚ := parseFloatChars s.data

/-- One benchmark record as produced by a run: bench_python.py builds
`("pandas", name, f"{avg_ms:.3f}", n)` tuples and writes them out. -/
structure Record where
  framework : String
  query : String
  avg_ms : ℚ
  rows : ℕ

/-- The loaded result data of print_table.py: `data[query][framework] = avg_ms`.
The nested Python dicts are flattened to an association list keyed by
`(query, framework)`; `dictInsert` reproduces dict assignment (overwrite in
place, append new keys) so key multiplicity and values match exactly. -/
abbrev Store := List ((String × String) × ℚ)

/-- Lookup `data.get(q, {}).get(fw)`. -/
def dataGet (st : Store) (k : String × String) : Option ℚ :=
  match st with
  | [] => none
  | e :: rest => if e.1 = k then some e.2 else dataGet rest k

/-- Python dict assignment `data[query][fw] = v`. -/
def dictInsert (k : String × String) (v : ℚ) : Store → Store
  | [] => [(k, v)]
  | e :: rest => if e.1 = k then (k, v) :: rest else e :: dictInsert k v rest

/-- Header written by bench_python.py and expected by the loader. -/
def headerRow : List String := ["framework", "query", "avg_ms", "rows"]

/-- One serialized TSV data row (csv.writer's cell quoting round-trips
cells exactly, so a row is modelled as its list of cells). -/
def recordRow (r : Record) : List String :=
  [r.framework, r.query, fmt3 r.avg_ms, natStr r.rows]

/-- `serialize`: header row then one row per record (bench_python.py main). -/
def serializeRows (rs : List Record) : List (List String) := headerRow :: rs.map recordRow

/-- Process one TSV data row as print_table.load does: read framework and
query verbatim, `float(row["avg_ms"])`, skip the row on `ValueError`.  A row
with fewer than three cells leaves `row["avg_ms"]` as `None` and `float(None)`
is an uncaught `TypeError`: modelled as `none` (a crash, not a skip). -/
def loadRow (st : Store) (row : List String) : Option Store :=
  match row with
  | fw :: q :: avg :: _ =>
    match parseFloat avg with
    | some v => some (dictInsert (q, fw) v st)
    | none => some st
  | _ => none

/-- Fold `loadRow` over the data rows of a file. -/
def loadRows (st : Store) : List (List String) → Option Store
  | [] => some st
  | row :: rest =>
    match loadRow st row with
    | some st2 => loadRows st2 rest
    | none => none

/-- print_table.load on a single file: the csv.DictReader keys rows by the
file's first row, which for files written by this harness is `headerRow`. -/
def loadFile (file : List (List String)) : Option Store :=
  match file with
  | [] => some []
  | hd :: rest => if hd = headerRow then loadRows [] rest else none

/-- The `(query, framework)` key under which the loader stores a record. -/
def keyOf (r : Record) : String × String := (r.query, r.framework)

/-- The loaded-store entry that a serialized record becomes. -/
def entryOf (r : Record) : (String × String) × ℚ := (keyOf r, round3 r.avg_ms)

end TSV

namespace Proc

/-- Observable outcome of one `subprocess.run` of the ibex binary: the wall
clock elapsed around the call, the exit code, and the captured streams. -/
structure RunOut where
  elapsed : ℚ
  returncode : ℤ
  stdout : String
  stderr : String

/-- ASCII lowering, the fragment of Python's `str.lower` relevant to the
`"error:"` marker search (engine output is ASCII). -/
def asciiLower (c : Char) : Char :=
  if 'A' ≤ c ∧ c ≤ 'Z' then Char.ofNat (c.toNat + 32) else c

/-- Characters of `s.lower()`. -/
def lowerStr (s : String) : List Char := s.data.map asciiLower

/-- The engine-error marker searched for in captured output. -/
def errorMarker : List Char := "error:".data

/-- Does `l` start with `pat`? -/
def charsStart : List Char → List Char → Bool
  | [], _ => true
  | _ :: _, [] => false
  | p :: ps, c :: cs => p == c && charsStart ps cs

/-- Python's `pat in l` substring test. -/
def hasSub (pat : List Char) : List Char → Bool
  | [] => charsStart pat []
  | c :: cs => charsStart pat (c :: cs) || hasSub pat cs

/-- Substring occurrence as a proposition. -/
def SubChars (pat l : List Char) : Prop := ∃ a b, l = a ++ pat ++ b

/-- bench_quant.py failure test: non-zero exit, or the marker in
`stdout.lower()`, or the marker in `stderr.lower()` (each stream separately). -/
def quantFailed (p : RunOut) : Bool :=
  (p.returncode != 0) || hasSub errorMarker (lowerStr p.stdout)
    || hasSub errorMarker (lowerStr p.stderr)

/-- bench_tf.py failure test: non-zero exit, or the marker in
`(stdout + stderr).lower()` (the concatenated streams). -/
def tfFailed (p : RunOut) : Bool :=
  (p.returncode != 0) || hasSub errorMarker ((p.stdout ++ p.stderr).data.map asciiLower)

/-- Build directories probed, in priority order (both harnesses). -/
def buildCandidates : List String := ["build-release", "build"]

/-- Path of the expected binary under a candidate build dir. -/
def ibexBinPath (c : String) : String := c ++ "/tools/ibex"

end Proc

namespace PrintTable

open TSV

/-- Canonical query ordering of print_table.py. -/
def QUERY_ORDER : List String :=
  ["mean_by_symbol", "ohlc_by_symbol", "update_price_x2",
   "count_by_symbol_day", "mean_by_symbol_day", "ohlc_by_symbol_day"]

/-- Ratio collection of print_table.print_table for framework `fw`:
`if ibex_v and fw_v and fw_v > 0: ratios.append(ibex_v / fw_v)`.
Python truthiness makes a present-but-0.0 value fail the test, hence the
`bv ≠ 0` and `fv ≠ 0` conjuncts. -/
def ratios (data : Store) (fw : String) : List ℚ :=
  QUERY_ORDER.filterMap fun q =>
    match dataGet data (q, "ibex"), dataGet data (q, fw) with
    | some bv, some fv => if bv ≠ 0 ∧ fv ≠ 0 ∧ 0 < fv then some (bv / fv) else none
    | _, _ => none

/-- Modelled from the spec: the claim's description of the ratio set,
"every query where both values exist and F's value is > 0" — with no
truthiness condition on the baseline value.  Kept for comparison with
`ratios`, the definition taken from the code. -/
def ratiosClaim (data : Store) (fw : String) : List ℚ :=
  QUERY_ORDER.filterMap fun q =>
    match dataGet data (q, "ibex"), dataGet data (q, fw) with
    | some bv, some fv => if 0 < fv then some (bv / fv) else none
    | _, _ => none

/-- The amended ratio set: both values present, the baseline value nonzero,
and F's value strictly positive. -/
def ratiosAmended (data : Store) (fw : String) : List ℚ :=
  QUERY_ORDER.filterMap fun q =>
    match dataGet data (q, "ibex"), dataGet data (q, fw) with
    | some bv, some fv => if bv ≠ 0 ∧ 0 < fv then some (bv / fv) else none
    | _, _ => none

/-- Aggregate geometric-mean speedup for `fw`:
`if ratios: gm = math.exp(sum(math.log(r) for r in ratios) / len(ratios))`,
and no aggregate line at all when the ratio list is empty. -/
noncomputable def aggregate (data : Store) (fw : String) : Option ℝ :=
  if ratios data fw = [] then none
  else
    some (Real.exp (((ratios data fw).map fun r : ℚ => Real.log (r : ℝ)).sum
      / (ratios data fw).length))

end PrintTable

namespace BenchTf

open Proc

/-- Fixed probe repeat count of bench_tf.bench_operation. -/
def probe_repeats : ℕ := 3

/-- `op_ms_est = max((probe_elapsed * 1000.0 - baseline_ms) / probe_repeats, 1.0)`. -/
def op_ms_est (probe_elapsed baseline_ms : ℚ) : ℚ :=
  max ((probe_elapsed * 1000 - baseline_ms) / (probe_repeats : ℚ)) 1

/-- `repeats = max(probe_repeats, math.ceil(min_seconds * 1000.0 / op_ms_est))`. -/
def bench_repeats (probe_elapsed baseline_ms min_seconds : ℚ) : ℤ :=
  max (probe_repeats : ℤ) ⌈min_seconds * 1000 / op_ms_est probe_elapsed baseline_ms⌉

/-- `net_ms = elapsed * 1000.0 - baseline_ms` (bench_operation). -/
def net_ms (elapsed baseline_ms : ℚ) : ℚ := elapsed * 1000 - baseline_ms

/-- `avg_ms = net_ms / repeats` (bench_operation). -/
def avg_ms (elapsed baseline_ms : ℚ) (repeats : ℤ) : ℚ :=
  net_ms elapsed baseline_ms / (repeats : ℚ)

/-- bench_tf.bench_operation over a run oracle.  The subprocess invocations
in program order are: `runs 0 .. runs (warmup-1)` the probe-script warmup
runs (their outcomes are discarded unchecked, bench_tf.py:100), `runs warmup`
the probe measurement (checked), `runs (warmup+1)` the bench-script warmup
(discarded unchecked, line 110), `runs (warmup+2)` the bench measurement
(checked).  Returns `(repeats, avg_ms)`. -/
def bench_operation (name : String) (runs : ℕ → RunOut) (warmup : ℕ)
    (baseline_ms min_seconds : ℚ) : Except String (ℤ × ℚ) :=
  let probe := runs warmup
  if tfFailed probe then
    .error (name ++ " probe failed:\n" ++ probe.stdout ++ "\n" ++ probe.stderr)
  else
    let repeats := bench_repeats probe.elapsed baseline_ms min_seconds
    let bench := runs (warmup + 2)
    if tfFailed bench then
      .error (name ++ " bench failed:\n" ++ bench.stdout ++ "\n" ++ bench.stderr)
    else .ok (repeats, avg_ms bench.elapsed baseline_ms repeats)

/-- bench_tf.detect_build_dir: first candidate whose `tools/ibex` exists,
else a hard error; `ex` is the filesystem existence oracle. -/
def detect_build_dir (ex : String → Bool) : Except String String :=
  match buildCandidates.find? (fun c => ex (ibexBinPath c)) with
  | some c => .ok c
  | none => .error "ibex binary not found — run cmake --build build-release first"

end BenchTf

/-- Modelled from the spec: the claim's calibration formula, "per-operation
cost = the probe's elapsed time divided by the probe count, floored at a
minimum epsilon of 1 ms".  Kept for comparison with the definitions taken
from the code (`BenchTf.bench_repeats`, `BenchQuant.calibrated_repeats`). -/
def claimPerOp (probe_elapsed_ms : ℚ) (probe_count : ℕ) : ℚ :=
  max (probe_elapsed_ms / (probe_count : ℚ)) 1

/-- Modelled from the spec: `repeat_count = ceil(min_seconds * 1000 / per_op_ms)`,
never less than the probe count. -/
def claimRepeatCount (probe_elapsed_ms min_seconds : ℚ) (probe_count : ℕ) : ℤ :=
  max (probe_count : ℤ) ⌈min_seconds * 1000 / claimPerOp probe_elapsed_ms probe_count⌉

namespace BenchQuant

open Proc TSV

/-- bench_quant.bench_ibex_compute_only calibration:
`repeats = max(1, int(math.ceil(min_seconds / max(probe_total, 1e-6))))`. -/
def calibrated_repeats (probe_total min_seconds : ℚ) : ℤ :=
  max 1 ⌈min_seconds / max probe_total (1 / 1000000)⌉

/-- A `RuntimeError` message carrying the captured output of a failed run. -/
def failMsg (label : String) (p : RunOut) : String :=
  label ++ p.stdout ++ "\n" ++ p.stderr

/-- bench_quant.bench_ibex_compute_only over a run oracle: `runs i` is the
outcome of the i-th subprocess invocation in program order
(warmup, probe, warmup2, bench, and on the scale-up path warmup3, bench2).
Returns `(repeats, total, avg_ms)`; the script path artifact is filesystem
bookkeeping and is not modelled. -/
def benchQuant (runs : ℕ → RunOut) (min_seconds : ℚ) : Except String (ℤ × ℚ × ℚ) :=
  let warm := runs 0
  if quantFailed warm then .error (failMsg ("ibex failed during warmup:\n") warm)
  else
    let probe := runs 1
    if quantFailed probe then .error (failMsg ("ibex failed during probe:\n") probe)
    else
      let repeats := calibrated_repeats probe.elapsed min_seconds
      let warm2 := runs 2
      if quantFailed warm2 then .error (failMsg ("ibex failed during warmup2:\n") warm2)
      else
        let bench := runs 3
        if quantFailed bench then .error (failMsg ("ibex failed:\n") bench)
        else
          let total := bench.elapsed
          if total < min_seconds ∧ 0 < total then
            let repeats2 := repeats * max ⌈min_seconds / total⌉ 1
            let warm3 := runs 4
            if quantFailed warm3 then .error (failMsg ("ibex failed during warmup3:\n") warm3)
            else
              let bench2 := runs 5
              if quantFailed bench2 then .error (failMsg ("ibex failed:\n") bench2)
              else .ok (repeats2, bench2.elapsed, 1000 * bench2.elapsed / (repeats2 : ℚ))
          else .ok (repeats, total, 1000 * total / (repeats : ℚ))

/-- One row of the ibex step profile: `(step_count, label, cumulative_ms, delta_ms)`. -/
structure ProfRow where
  step : ℕ
  label : String
  cumulative_ms : ℚ
  delta_ms : ℚ
deriving DecidableEq

/-- The `RuntimeError` raised by a failed profiling run at a given step. -/
def profFailMsg (sc : ℕ) (p : RunOut) : String :=
  "ibex step profile failed at step " ++ natStr sc ++ ":\n" ++ p.stdout ++ "\n" ++ p.stderr

/-- Inner loop of profile_ibex_steps: execute the per-step runs in order,
abort at the first failing run, otherwise sum the elapsed times. -/
def profRunsLoop (sc : ℕ) : List RunOut → ℚ → Except String ℚ
  | [], acc => .ok acc
  | p :: rest, acc =>
    if quantFailed p then .error (profFailMsg sc p)
    else profRunsLoop sc rest (acc + p.elapsed)

/-- `range(max(runs, 1))` — the number of runs actually executed per step. -/
def runsPerStep (runs : ℤ) : ℕ := (max runs 1).toNat

/-- Denominator of cumulative_ms: `max(runs, 1) * repeat` with
`repeat = max(repeat, 1)` clamped before the loop. -/
def profDenom (runs rep : ℤ) : ℚ := ((max runs 1 * max rep 1 : ℤ) : ℚ)

/-- Outer loop of profile_ibex_steps over the remaining `(step_count, label)`
pairs, carrying `cumulative_prev`.  `oracle sc r` is the outcome of run `r`
of the script containing the first `sc` steps. -/
def profileAux (oracle : ℕ → ℕ → RunOut) (runs rep : ℤ) :
    List (ℕ × String) → ℚ → Except String (List ProfRow)
  | [], _ => .ok []
  | (sc, lab) :: rest, prev =>
    match profRunsLoop sc ((List.range (runsPerStep runs)).map (oracle sc)) 0 with
    | .error e => .error e
    | .ok total =>
      let cum := 1000 * total / profDenom runs rep
      match profileAux oracle runs rep rest cum with
      | .error e => .error e
      | .ok tail => .ok (⟨sc, lab, cum, cum - prev⟩ :: tail)

/-- `(step_count, label)` pairs for step_count = 1..N. -/
def mkSteps (labels : List String) : List (ℕ × String) :=
  labels.enum.map fun p => (p.1 + 1, p.2)

/-- profile_ibex_steps: one row per step count 1..N in order, starting from
`cumulative_prev = 0`. -/
def profile_ibex_steps (oracle : ℕ → ℕ → RunOut) (labels : List String)
    (runs rep : ℤ) : Except String (List ProfRow) :=
  profileAux oracle runs rep (mkSteps labels) 0

/-- The step labels of the profiled ibex pipeline (bench_quant.py). -/
def IBEX_QUANT_STEP_LABELS : List String :=
  ["daily update", "annual by symbol", "sector rank", "up-day momentum",
   "volatility rank", "stress by sector", "volume spikes", "vwap",
   "enrich + sym_stats", "screens", "sharpe + rating", "sector macro"]

/-- Modelled from the spec: the claim's cumulative_ms formula,
`1000 * sum_elapsed / (runs_per_step * inner_repeat)` with the raw
(unclamped) parameters. -/
def specCum (oracle : ℕ → ℕ → RunOut) (runs rep : ℤ) (sc : ℕ) : ℚ :=
  1000 * (((List.range runs.toNat).map fun r => (oracle sc r).elapsed).sum)
    / ((runs * rep : ℤ) : ℚ)

/-- Modelled from the spec: the claim's expected row sequence, with
`delta_ms = cumulative_ms - previous` and previous = 0 initially. -/
def specRows (oracle : ℕ → ℕ → RunOut) (runs rep : ℤ) :
    List (ℕ × String) → ℚ → List ProfRow
  | [], _ => []
  | (sc, lab) :: rest, prev =>
    ⟨sc, lab, specCum oracle runs rep sc, specCum oracle runs rep sc - prev⟩ ::
      specRows oracle runs rep rest (specCum oracle runs rep sc)

/-- Cumulative cost the implementation computes for step `sc`, with the
clamped run count and denominator it actually uses. -/
def cumOf (oracle : ℕ → ℕ → RunOut) (runs rep : ℤ) (sc : ℕ) : ℚ :=
  1000 * (((List.range (runsPerStep runs)).map fun r => (oracle sc r).elapsed).sum)
    / profDenom runs rep

/-- The row sequence the implementation produces when every run succeeds. -/
def rowsOf (oracle : ℕ → ℕ → RunOut) (runs rep : ℤ) :
    List (ℕ × String) → ℚ → List ProfRow
  | [], _ => []
  | (sc, lab) :: rest, prev =>
    ⟨sc, lab, cumOf oracle runs rep sc, cumOf oracle runs rep sc - prev⟩ ::
      rowsOf oracle runs rep rest (cumOf oracle runs rep sc)

/-- bench_quant.detect_build_dir: a requested dir is returned unchecked,
else the candidates are probed in order for `tools/ibex`. -/
def detect_build_dir (requested : Option String) (ex : String → Bool) :
    Except String String :=
  match requested with
  | some r => .ok r
  | none =>
    match buildCandidates.find? (fun c => ex (ibexBinPath c)) with
    | some c => .ok c
    | none =>
      .error "could not find ibex binary (expected build/tools/ibex or build-release/tools/ibex)"

end BenchQuant

namespace PyTimer

/-- Run `fn` a number of times against an explicit world state, keeping the
last result (`result = fn()` in each loop iteration). -/
def runN {σ α : Type} (fn : σ → σ × α) : ℕ → σ → Option α → σ × Option α
  | 0, s, r => (s, r)
  | n + 1, s, _ =>
    let t := fn s
    runN fn n t.1 (some t.2)

/-- bench_python.timer: warm up, read the clock once, run the timed batch,
read the clock once more; `avg_ms = elapsed * 1000 / iters` and the last
result is returned.  The world `σ` carries whatever the operation mutates,
and `clock` is `time.perf_counter`. -/
def timer {σ α : Type} (fn : σ → σ × α) (clock : σ → ℚ) (warmup iters : ℕ)
    (s0 : σ) : σ × ℚ × Option α :=
  let w := runN fn warmup s0 none
  let t0 := clock w.1
  let m := runN fn iters w.1 w.2
  let t1 := clock m.1
  (m.1, (t1 - t0) * 1000 / (iters : ℚ), m.2)

/-- tools/bench_polars.bench: same protocol, `rows` re-read from each timed
iteration's result (0 if the timed loop never runs), reporting
`(total_ms, avg_ms, rows)`. -/
def polarsBench {σ : Type} (fn : σ → σ × ℕ) (clock : σ → ℚ) (warmup iters : ℕ)
    (s0 : σ) : σ × ℚ × ℚ × ℕ :=
  let w := runN fn warmup s0 none
  let t0 := clock w.1
  let m := runN fn iters w.1 none
  let elapsed_ms := (clock m.1 - t0) * 1000
  (m.1, elapsed_ms, elapsed_ms / (iters : ℚ), m.2.getD 0)

/-- Duration semantics for a deterministic operation: the world counts the
invocations made so far and accumulates the clock; the k-th invocation takes
`d k` seconds and yields `res k`. -/
def opStep (d : ℕ → ℚ) (res : ℕ → ℕ) : ℕ × ℚ → (ℕ × ℚ) × ℕ :=
  fun s => ((s.1 + 1, s.2 + d s.1), res s.1)

/-- The wall clock of the duration semantics. -/
def stateClock : ℕ × ℚ → ℚ := Prod.snd

end PyTimer

section Fixtures

open TSV Proc BenchQuant PyTimer

/-- Concrete record used to instantiate the round-trip theorem. -/
def recW : Record := ⟨"pandas", "mean_by_symbol", 3 / 2, 10⟩

/-- First of two records sharing a (framework, query) key. -/
def recA : Record := ⟨"pandas", "mean_by_symbol", 1, 5⟩

/-- Second record with the same key as `recA` but a different avg_ms. -/
def recB : Record := ⟨"pandas", "mean_by_symbol", 2, 5⟩

/-- Loaded data in which the baseline value for a query is 0.0. -/
def data0 : Store := [(("mean_by_symbol", "ibex"), 0), (("mean_by_symbol", "pandas"), 5)]

/-- Loaded data with baseline avg_ms [10, 20, 40] and pandas avg_ms
[5, 10, 20] over three queries. -/
def data3 : Store :=
  [(("mean_by_symbol", "ibex"), 10), (("ohlc_by_symbol", "ibex"), 20),
   (("update_price_x2", "ibex"), 40), (("mean_by_symbol", "pandas"), 5),
   (("ohlc_by_symbol", "pandas"), 10), (("update_price_x2", "pandas"), 20)]

/-- A run oracle for bench_ibex_compute_only in which every run succeeds,
the first bench run is short (1/2 s) and the re-measured run takes 3 s. -/
def runsW : ℕ → RunOut :=
  fun i => ⟨if i = 3 then 1 / 2 else if i = 5 then 3 else 1, 0, "", ""⟩

/-- A run oracle whose very first run exits with a non-zero code. -/
def runsBad : ℕ → RunOut := fun _ => ⟨1, 1, "", ""⟩

/-- A successful-exit run whose error marker spans the stdout/stderr
boundary: stdout ends in "err" and stderr starts with "or:". -/
def pSplit : RunOut := ⟨0, 0, "err", "or:"⟩

/-- A run oracle whose warmup run succeeds but whose probe run (index 1)
reports an engine error on stdout. -/
def runsProbeBad : ℕ → RunOut :=
  fun i => if i = 1 then ⟨1, 0, "Error: bad plan", ""⟩ else ⟨1, 0, "", ""⟩

/-- A step-profile oracle in which every run succeeds and takes 2 s. -/
def profW : ℕ → ℕ → RunOut := fun _ _ => ⟨2, 0, "", ""⟩

/-- Constant 1-second duration for the timer semantics. -/
def dW : ℕ → ℚ := fun _ => 1

/-- The k-th invocation returns k (so the last result is identifiable). -/
def resW : ℕ → ℕ := fun i => i

/-- A filesystem oracle on which no candidate build directory exists. -/
def exW : String → Bool := fun _ => false

end Fixtures

namespace TSV

theorem digitVal?_digitChar : ∀ d : ℕ, d < 10 → digitVal? (digitChar d) = some d := by
  decide

theorem digitVal?_dot : digitVal? '.' = none := by decide

theorem digitChar_ne_dash : ∀ d : ℕ, d < 10 → ¬(digitChar d = '-') := by decide

theorem parseNatAcc_digits (rest : List Char)
    (hrest : rest = [] ∨ ∃ c cs, rest = c :: cs ∧ digitVal? c = none) :
    ∀ ds : List ℕ, (∀ d ∈ ds, d < 10) → ∀ acc : ℕ,
      parseNatAcc (ds.map digitChar ++ rest) acc =
        (ds.foldl (fun a d => 10 * a + d) acc, ds.length, rest) := by
  intro ds
  induction ds with
  | nil =>
    intro _ acc
    rcases hrest with h | ⟨c, cs, h, hc⟩
    · subst h; simp [parseNatAcc]
    · subst h; simp [parseNatAcc, hc]
  | cons d ds ih =>
    intro hlt acc
    have hd : d < 10 := hlt d (List.mem_cons_self _ _)
    simp only [List.map_cons, List.cons_append, parseNatAcc,
      digitVal?_digitChar d hd, List.append_eq]
    rw [ih (fun x hx => hlt x (List.mem_cons_of_mem _ hx)) (10 * acc + d)]
    simp [List.foldl_cons]

theorem natDigitsRev_lt (fuel : ℕ) : ∀ n, ∀ d ∈ natDigitsRev fuel n, d < 10 := by
  induction fuel with
  | zero => intro n d hd; simp [natDigitsRev] at hd
  | succ fuel ih =>
    intro n d hd
    by_cases hn : n = 0
    · simp [natDigitsRev, hn] at hd
    · simp only [natDigitsRev, if_neg hn, List.mem_cons] at hd
      rcases hd with h | h
      · omega
      · exact ih _ d h

theorem natDigitsRev_val :
    ∀ fuel n, n ≤ fuel → (natDigitsRev fuel n).foldr (fun d a => d + 10 * a) 0 = n := by
  intro fuel
  induction fuel with
  | zero => intro n hn; interval_cases n; simp [natDigitsRev]
  | succ fuel ih =>
    intro n hn
    by_cases h0 : n = 0
    · simp [natDigitsRev, h0]
    · simp only [natDigitsRev, if_neg h0, List.foldr_cons]
      rw [ih (n / 10) (by omega)]
      omega

theorem natDigitsRev_ne_nil (fuel n : ℕ) (h1 : 0 < n) (h2 : n ≤ fuel) :
    natDigitsRev fuel n ≠ [] := by
  cases fuel with
  | zero => omega
  | succ fuel => simp [natDigitsRev, Nat.pos_iff_ne_zero.mp h1]

theorem foldl_reverse_eq_foldr (l : List ℕ) (a : ℕ) :
    l.reverse.foldl (fun x d => 10 * x + d) a =
      a * 10 ^ l.length + l.foldr (fun d x => d + 10 * x) 0 := by
  induction l generalizing a with
  | nil => simp
  | cons d l ih =>
    simp only [List.reverse_cons, List.foldl_append, List.foldl_cons, List.foldl_nil,
      List.foldr_cons, List.length_cons, ih]
    ring

theorem natChars_spec (k : ℕ) :
    ∃ ds : List ℕ, natChars k = ds.map digitChar ∧ (∀ d ∈ ds, d < 10) ∧
      ds.foldl (fun a d => 10 * a + d) 0 = k ∧ ds ≠ [] := by
  by_cases hk : k = 0
  · subst hk
    exact ⟨[0], by decide, by decide, by decide, by decide⟩
  · refine ⟨(natDigitsRev k k).reverse, ?_, ?_, ?_, ?_⟩
    · simp [natChars, hk]
    · intro d hd
      exact natDigitsRev_lt k k d (List.mem_reverse.mp hd)
    · rw [foldl_reverse_eq_foldr, natDigitsRev_val k k le_rfl]
      simp
    · simp only [ne_eq, List.reverse_eq_nil_iff]
      exact natDigitsRev_ne_nil k k (by omega) le_rfl

theorem parseUFloat_body (m : ℕ) :
    parseUFloat (natChars (m / 1000) ++ '.' :: pad3 (m % 1000)) =
      some ((m : ℚ) / 1000) := by
  obtain ⟨ds, hmap, hlt, hval, hne⟩ := natChars_spec (m / 1000)
  have hpad : pad3 (m % 1000) =
      [m % 1000 / 100, m % 1000 / 10 % 10, m % 1000 % 10].map digitChar := by
    simp [pad3]
  have hlim : m % 1000 < 1000 := Nat.mod_lt _ (by norm_num)
  have h1 : parseNatAcc (ds.map digitChar ++ '.' :: pad3 (m % 1000)) 0 =
      (m / 1000, ds.length, '.' :: pad3 (m % 1000)) := by
    rw [parseNatAcc_digits _ (Or.inr ⟨'.', _, rfl, digitVal?_dot⟩) ds hlt 0, hval]
  have h2 : parseNatAcc (pad3 (m % 1000)) 0 = (m % 1000, 3, []) := by
    rw [hpad, ← List.append_nil ([m % 1000 / 100, m % 1000 / 10 % 10,
      m % 1000 % 10].map digitChar)]
    rw [parseNatAcc_digits [] (Or.inl rfl) _ (by intro d hd; fin_cases hd <;> omega) 0]
    refine congrArg (fun x => (x, 3, [])) ?_
    simp only [List.foldl_cons, List.foldl_nil]
    omega
  have hdm : (1000 : ℕ) * (m / 1000) + m % 1000 = m := Nat.div_add_mod m 1000
  have hq : (1000 : ℚ) * ((m / 1000 : ℕ) : ℚ) + ((m % 1000 : ℕ) : ℚ) = (m : ℚ) := by
    exact_mod_cast congrArg (fun x : ℕ => (x : ℚ)) hdm
  rw [hmap]
  simp only [parseUFloat, h1, h2]
  norm_num
  rw [eq_div_iff (by norm_num : (1000 : ℚ) ≠ 0)]
  ring_nf
  ring_nf at hq
  linarith

theorem parseFloat_fmt3 (q : ℚ) : parseFloat (fmt3 q) = some (round3 q) := by
  have hbody : ∀ m : ℕ,
      parseFloatChars (natChars (m / 1000) ++ '.' :: pad3 (m % 1000)) =
        some ((m : ℚ) / 1000) := by
    intro m
    obtain ⟨ds, hmap, hlt, hval, hne⟩ := natChars_spec (m / 1000)
    cases hds : ds with
    | nil => exact absurd hds hne
    | cons d0 ds' =>
      have hd0 : d0 < 10 := hlt d0 (by rw [hds]; exact List.mem_cons_self _ _)
      have : natChars (m / 1000) ++ '.' :: pad3 (m % 1000) =
          digitChar d0 :: (ds'.map digitChar ++ '.' :: pad3 (m % 1000)) := by
        rw [hmap, hds]; simp
      rw [this]
      simp only [parseFloatChars, if_neg (digitChar_ne_dash d0 hd0)]
      rw [← this]
      exact parseUFloat_body m
  simp only [parseFloat, fmt3, round3]
  show parseFloatChars (fmt3Chars q) = some ((rhe (1000 * q) : ℚ) / 1000)
  by_cases hneg : rhe (1000 * q) < 0
  · have hchars : fmt3Chars q = '-' ::
        (natChars ((rhe (1000 * q)).natAbs / 1000) ++ '.' ::
          pad3 ((rhe (1000 * q)).natAbs % 1000)) := by
      simp [fmt3Chars, hneg]
    rw [hchars]
    simp only [parseFloatChars, if_pos rfl]
    have hparse : parseUFloat (natChars ((rhe (1000 * q)).natAbs / 1000) ++ '.' ::
        pad3 ((rhe (1000 * q)).natAbs % 1000)) =
        some (((rhe (1000 * q)).natAbs : ℚ) / 1000) := parseUFloat_body _
    rw [hparse]
    have h4 : (((rhe (1000 * q)).natAbs : ℕ) : ℚ) = -((rhe (1000 * q) : ℤ) : ℚ) := by
      push_cast [Int.cast_natAbs]
      exact abs_of_neg (by exact_mod_cast hneg)
    simp only [Option.map]
    refine congrArg some ?_
    rw [h4]
    ring
  · have hchars : fmt3Chars q =
        natChars ((rhe (1000 * q)).natAbs / 1000) ++ '.' ::
          pad3 ((rhe (1000 * q)).natAbs % 1000) := by
      simp [fmt3Chars, hneg]
    rw [hchars, hbody]
    refine congrArg some ?_
    have h4 : (((rhe (1000 * q)).natAbs : ℕ) : ℚ) = ((rhe (1000 * q) : ℤ) : ℚ) := by
      push_cast [Int.cast_natAbs]
      exact abs_of_nonneg (by exact_mod_cast not_lt.mp hneg)
    rw [h4]

theorem abs_rhe_sub_le (y : ℚ) : |(rhe y : ℚ) - y| ≤ 1 / 2 := by
  have h0 : (0 : ℚ) ≤ y - (⌊y⌋ : ℚ) := sub_nonneg.mpr (Int.floor_le y)
  have h1 : y - (⌊y⌋ : ℚ) < 1 := by
    have := Int.lt_floor_add_one y
    linarith
  simp only [rhe]
  split_ifs with hlt hgt heven
  · rw [abs_sub_comm, abs_of_nonneg h0]; linarith
  · push_cast
    rw [abs_of_nonneg (by linarith)]
    linarith
  · rw [abs_sub_comm, abs_of_nonneg h0]; linarith
  · push_cast
    rw [abs_of_nonneg (by linarith)]
    linarith

theorem round3_close (q : ℚ) : |round3 q - q| ≤ 1 / 2000 := by
  have h := abs_rhe_sub_le (1000 * q)
  have heq : round3 q - q = ((rhe (1000 * q) : ℚ) - 1000 * q) / 1000 := by
    simp only [round3]; ring
  rw [heq, abs_div, abs_of_pos (by norm_num : (0 : ℚ) < 1000)]
  linarith

theorem dataGet_append_of_none (a b : Store) (k : String × String)
    (h : dataGet a k = none) : dataGet (a ++ b) k = dataGet b k := by
  induction a with
  | nil => simp
  | cons e a ih =>
    simp only [dataGet] at h
    by_cases he : e.1 = k
    · rw [if_pos he] at h; exact absurd h (by simp)
    · rw [if_neg he] at h
      simpa [dataGet, if_neg he] using ih h

theorem dictInsert_of_absent (k : String × String) (v : ℚ) :
    ∀ st : Store, dataGet st k = none → dictInsert k v st = st ++ [(k, v)] := by
  intro st
  induction st with
  | nil => intro _; rfl
  | cons e st ih =>
    intro h
    simp only [dataGet] at h
    by_cases he : e.1 = k
    · rw [if_pos he] at h; exact absurd h (by simp)
    · rw [if_neg he] at h
      simp [dictInsert, if_neg he, ih h]

theorem loadRows_serialized :
    ∀ (rs : List Record) (st : Store),
      (∀ r ∈ rs, dataGet st (keyOf r) = none) → (rs.map keyOf).Nodup →
      loadRows st (rs.map recordRow) = some (st ++ rs.map entryOf) := by
  intro rs
  induction rs with
  | nil => intro st _ _; simp [loadRows]
  | cons r rs ih =>
    intro st hfresh hnd
    have hrow : loadRow st (recordRow r) =
        some (dictInsert (keyOf r) (round3 r.avg_ms) st) := by
      simp only [recordRow, loadRow, parseFloat_fmt3, keyOf]
    have hins : dictInsert (keyOf r) (round3 r.avg_ms) st = st ++ [entryOf r] :=
      dictInsert_of_absent _ _ st (hfresh r (List.mem_cons_self _ _))
    have hkey : keyOf r ∉ rs.map keyOf := by
      have := hnd
      simp only [List.map_cons, List.nodup_cons] at this
      exact this.1
    have hfresh2 : ∀ r2 ∈ rs, dataGet (st ++ [entryOf r]) (keyOf r2) = none := by
      intro r2 hr2
      rw [dataGet_append_of_none _ _ _ (hfresh r2 (List.mem_cons_of_mem _ hr2))]
      have hne : keyOf r ≠ keyOf r2 := by
        intro hcontra
        exact hkey (hcontra ▸ List.mem_map_of_mem keyOf hr2)
      simp [dataGet, entryOf, hne]
    have hnd2 : (rs.map keyOf).Nodup := by
      have := hnd
      simp only [List.map_cons, List.nodup_cons] at this
      exact this.2
    simp only [List.map_cons, loadRows, hrow, hins]
    rw [ih (st ++ [entryOf r]) hfresh2 hnd2]
    simp

theorem rhe_intCast (z : ℤ) : rhe ((z : ℤ) : ℚ) = z := by
  simp only [rhe, Int.floor_intCast]
  rw [if_pos (by norm_num)]

theorem loadRow_recordRow (st : Store) (r : Record) :
    loadRow st (recordRow r) = some (dictInsert (keyOf r) (round3 r.avg_ms) st) := by
  simp only [recordRow, loadRow, parseFloat_fmt3, keyOf]

theorem dataGet_map_entryOf :
    ∀ rs : List Record, (rs.map keyOf).Nodup →
      ∀ r ∈ rs, dataGet (rs.map entryOf) (keyOf r) = some (round3 r.avg_ms) := by
  intro rs
  induction rs with
  | nil => intro _ r hr; simp at hr
  | cons r0 rs ih =>
    intro hnd r hr
    simp only [List.map_cons, List.nodup_cons] at hnd
    rcases List.mem_cons.mp hr with h | h
    · subst h
      simp [dataGet, entryOf]
    · have hne : (entryOf r0).1 ≠ keyOf r := by
        intro hcontra
        simp only [entryOf] at hcontra
        exact hnd.1 (hcontra ▸ List.mem_map_of_mem keyOf h)
      simp only [List.map_cons, dataGet, if_neg hne]
      exact ih hnd.2 r h

end TSV

/-- C1 (counterexample): serializing two records that share the (framework,
query) key "pandas"/"mean_by_symbol" with avg_ms 1.0 and 2.0 and loading the
file back yields a single entry holding only the later value 2.0 — not the
same two records the claim promises.  The loader keys its dict by
(query, framework), so the earlier record is overwritten. -/
theorem tsv_roundtrip_cex :
    TSV.loadFile (TSV.serializeRows [recA, recB]) =
      some [(("mean_by_symbol", "pandas"), 2)] ∧
    [recA, recB].length = 2 := by
  refine ⟨?_, rfl⟩
  have h1 := TSV.loadRow_recordRow [] recA
  have h2 := TSV.loadRow_recordRow
    (TSV.dictInsert (TSV.keyOf recA) (TSV.round3 recA.avg_ms) []) recB
  simp only [TSV.serializeRows, List.map_cons, List.map_nil, TSV.loadFile,
    if_pos rfl, TSV.loadRows, h1, h2]
  have hkey : TSV.keyOf recA = ("mean_by_symbol", "pandas") := rfl
  have hkeyB : TSV.keyOf recB = ("mean_by_symbol", "pandas") := rfl
  have hins1 : TSV.dictInsert (TSV.keyOf recA) (TSV.round3 recA.avg_ms) [] =
      [(("mean_by_symbol", "pandas"), TSV.round3 recA.avg_ms)] := by
    rw [hkey]; rfl
  rw [hins1, hkeyB]
  have hins2 : TSV.dictInsert (("mean_by_symbol", "pandas")) (TSV.round3 recB.avg_ms)
      [(("mean_by_symbol", "pandas"), TSV.round3 recA.avg_ms)] =
      [(("mean_by_symbol", "pandas"), TSV.round3 recB.avg_ms)] := by
    simp [TSV.dictInsert]
  rw [hins2]
  have hval : TSV.round3 recB.avg_ms = 2 := by
    show TSV.round3 (2 : ℚ) = 2
    rw [TSV.round3, show (1000 : ℚ) * 2 = ((2000 : ℤ) : ℚ) by norm_num,
      TSV.rhe_intCast]
    norm_num
  rw [hval]
  simp

/-- C1 (amended): for records with pairwise distinct (framework, query) keys,
serializing to the TSV format and loading back yields a store with exactly one
entry per record, whose avg_ms is the 3-decimal rounding of the original and
within 1/2000 of it.  (The loader keeps no rows column; duplicates of a key
keep only the last value, per the counterexample.) -/
theorem tsv_roundtrip_amended (rs : List TSV.Record)
    (h : (rs.map TSV.keyOf).Nodup) :
    ∃ st, TSV.loadFile (TSV.serializeRows rs) = some st ∧
      st.length = rs.length ∧
      (∀ r ∈ rs, TSV.dataGet st (TSV.keyOf r) = some (TSV.round3 r.avg_ms)) ∧
      (∀ r ∈ rs, |TSV.round3 r.avg_ms - r.avg_ms| ≤ 1 / 2000) := by
  refine ⟨rs.map TSV.entryOf, ?_, by simp, ?_, ?_⟩
  · simp only [TSV.loadFile, TSV.serializeRows, if_pos rfl]
    have := TSV.loadRows_serialized rs [] (by intro r _; rfl) h
    simpa using this
  · exact TSV.dataGet_map_entryOf rs h
  · intro r _
    exact TSV.round3_close r.avg_ms

/-- Witness for `tsv_roundtrip_amended` at the single record
("pandas", "mean_by_symbol", 1.5, 10). -/
theorem tsv_roundtrip_amended_witness :
    ∃ st, TSV.loadFile (TSV.serializeRows [recW]) = some st ∧
      st.length = [recW].length ∧
      (∀ r ∈ [recW], TSV.dataGet st (TSV.keyOf r) = some (TSV.round3 r.avg_ms)) ∧
      (∀ r ∈ [recW], |TSV.round3 r.avg_ms - r.avg_ms| ≤ 1 / 2000) :=
  tsv_roundtrip_amended [recW] (by decide)

namespace PrintTable

theorem filterMap_ext {α β : Type} (f g : α → Option β) :
    ∀ l : List α, (∀ a ∈ l, f a = g a) → l.filterMap f = l.filterMap g := by
  intro l
  induction l with
  | nil => intro _; rfl
  | cons a l ih =>
    intro h
    simp only [List.filterMap_cons, h a (List.mem_cons_self _ _),
      ih fun x hx => h x (List.mem_cons_of_mem _ hx)]

theorem ratios_eq_ratiosAmended (data : TSV.Store) (fw : String) :
    ratios data fw = ratiosAmended data fw := by
  unfold ratios ratiosAmended
  refine filterMap_ext _ _ QUERY_ORDER fun q _ => ?_
  cases TSV.dataGet data (q, "ibex") with
  | none => rfl
  | some bv =>
    cases TSV.dataGet data (q, fw) with
    | none => rfl
    | some fv =>
      simp only []
      refine if_congr ?_ rfl rfl
      constructor
      · rintro ⟨h1, _, h3⟩; exact ⟨h1, h3⟩
      · rintro ⟨h1, h3⟩; exact ⟨h1, ne_of_gt h3, h3⟩

theorem aggregate_of_ratios_nil (data : TSV.Store) (fw : String)
    (h : ratios data fw = []) : aggregate data fw = none := by
  simp [aggregate, h]

end PrintTable

/-- C2 (counterexample): with loaded data in which the baseline (ibex) value
for "mean_by_symbol" is 0.0 and the pandas value is 5.0, the claim's ratio
set ("both values exist and F's value > 0") has one element, but the code's
Python truthiness test `if ibex_v and fw_v and fw_v > 0` drops the query
because the baseline is falsy, so no ratio is collected and no aggregate is
emitted — the claimed "exactly those queries" characterisation is false. -/
theorem speedup_aggregate_cex :
    PrintTable.ratios data0 ("pandas") = [] ∧
    (PrintTable.ratiosClaim data0 ("pandas")).length = 1 ∧
    PrintTable.aggregate data0 ("pandas") = none := by
  refine ⟨by decide, by decide, ?_⟩
  exact PrintTable.aggregate_of_ratios_nil data0 ("pandas") (by decide)

/-- C2 (amended): the aggregate speedup for a non-baseline framework is the
geometric mean (exp of mean of logs) of the ratios baseline_ms / F_ms over
exactly those queries where both values exist, the baseline value is nonzero,
and F's value is > 0; on baseline [10, 20, 40] vs F [5, 10, 20] it equals 2
exactly, and when the ratio set is empty no aggregate is produced. -/
theorem speedup_aggregate_amended :
    PrintTable.aggregate data3 ("pandas") = some 2 ∧
    (∀ data fw, PrintTable.ratios data fw = [] →
      PrintTable.aggregate data fw = none) ∧
    (∀ data fw, PrintTable.ratios data fw = PrintTable.ratiosAmended data fw) := by
  refine ⟨?_, PrintTable.aggregate_of_ratios_nil, PrintTable.ratios_eq_ratiosAmended⟩
  have hr : PrintTable.ratios data3 ("pandas") = [2, 2, 2] := by
    rw [show PrintTable.ratios data3 ("pandas") = [10 / 5, 20 / 10, 40 / 20] from rfl]
    norm_num
  simp only [PrintTable.aggregate, hr]
  rw [if_neg (by simp)]
  refine congrArg some ?_
  simp only [List.map_cons, List.map_nil, List.sum_cons, List.sum_nil,
    List.length_cons, List.length_nil]
  rw [show ((2 : ℚ) : ℝ) = 2 by norm_num]
  rw [show Real.log 2 + (Real.log 2 + (Real.log 2 + 0)) = 3 * Real.log 2 by ring]
  rw [show ((0 + 1 + 1 + 1 : ℕ) : ℝ) = 3 by norm_num]
  rw [mul_div_cancel_left₀ (Real.log 2) (by norm_num : (3 : ℝ) ≠ 0)]
  exact Real.exp_log (by norm_num)

/-- Witness for the empty-ratio clause of `speedup_aggregate_amended`:
on an empty result store no aggregate is produced for pandas. -/
theorem speedup_aggregate_amended_witness :
    PrintTable.aggregate [] ("pandas") = none :=
  speedup_aggregate_amended.2.1 [] ("pandas") rfl

/-- C3 (counterexample): with a probe elapsed of 2 s, a measured baseline
overhead of 500 ms and min_seconds = 10, bench_tf's calibration returns
max(3, ceil(10000 / max((2000-500)/3, 1))) = 20 repeats, while the claim's
formula (elapsed / probe_count floored at 1 ms, no baseline subtraction)
gives max(3, ceil(10000 / max(2000/3, 1))) = 15 — the claim omits the
baseline subtraction performed by the code. -/
theorem calibration_repeats_cex :
    BenchTf.bench_repeats 2 500 10 = 20 ∧
    claimRepeatCount (2 * 1000) 10 BenchTf.probe_repeats = 15 ∧
    BenchTf.bench_repeats 2 500 10 ≠
      claimRepeatCount (2 * 1000) 10 BenchTf.probe_repeats := by
  have hop : BenchTf.op_ms_est 2 500 = 500 := by
    rw [BenchTf.op_ms_est,
      show ((2 : ℚ) * 1000 - 500) / ((BenchTf.probe_repeats : ℕ) : ℚ) = 500 from by
        norm_num [BenchTf.probe_repeats]]
    exact max_eq_left (by norm_num)
  have h1 : BenchTf.bench_repeats 2 500 10 = 20 := by
    rw [BenchTf.bench_repeats, hop, show (10 : ℚ) * 1000 / 500 = 20 by norm_num]
    rw [show (20 : ℚ) = ((20 : ℤ) : ℚ) by norm_num, Int.ceil_intCast]
    exact max_eq_right (by norm_num [BenchTf.probe_repeats])
  have hperop : claimPerOp (2 * 1000) BenchTf.probe_repeats = 2000 / 3 := by
    rw [claimPerOp,
      show ((2 : ℚ) * 1000) / ((BenchTf.probe_repeats : ℕ) : ℚ) = 2000 / 3 from by
        norm_num [BenchTf.probe_repeats]]
    exact max_eq_left (by norm_num)
  have h2 : claimRepeatCount (2 * 1000) 10 BenchTf.probe_repeats = 15 := by
    rw [claimRepeatCount, hperop, show (10 : ℚ) * 1000 / (2000 / 3) = 15 by norm_num]
    rw [show (15 : ℚ) = ((15 : ℤ) : ℚ) by norm_num, Int.ceil_intCast]
    exact max_eq_right (by norm_num [BenchTf.probe_repeats])
  exact ⟨h1, h2, by rw [h1, h2]; decide⟩

/-- C3 (amended): bench_tf's per-operation estimate subtracts the measured
baseline overhead before dividing by the probe count and flooring at 1 ms
(it coincides with the claim's formula exactly when the baseline is 0), and
bench_quant's variant uses probe count 1 with a 1 µs floor on the probe
elapsed; in both, the returned repeat count is max(probe_count, ceil(...)),
hence never less than the probe count, for every min_seconds including
min_seconds ≤ 0. -/
theorem calibration_repeats_amended :
    (∀ pe ms : ℚ, BenchTf.bench_repeats pe 0 ms =
      claimRepeatCount (pe * 1000) ms BenchTf.probe_repeats) ∧
    (∀ pe bm ms : ℚ, (BenchTf.probe_repeats : ℤ) ≤ BenchTf.bench_repeats pe bm ms) ∧
    (∀ pt ms : ℚ, 1 ≤ BenchQuant.calibrated_repeats pt ms) := by
  refine ⟨fun pe ms => ?_, fun pe bm ms => le_max_left _ _, fun pt ms => le_max_left _ _⟩
  simp only [BenchTf.bench_repeats, claimRepeatCount, BenchTf.op_ms_est, claimPerOp,
    sub_zero]

namespace Proc

theorem charsStart_iff (p : List Char) : ∀ l, charsStart p l = true ↔ ∃ t, l = p ++ t := by
  induction p with
  | nil =>
    intro l
    simp [charsStart]
  | cons pc pp ih =>
    intro l
    cases l with
    | nil => simp [charsStart]
    | cons c cs =>
      simp only [charsStart, Bool.and_eq_true, beq_iff_eq]
      constructor
      · rintro ⟨hpc, hrest⟩
        obtain ⟨t, ht⟩ := (ih cs).mp hrest
        exact ⟨t, by rw [ht, hpc]; rfl⟩
      · rintro ⟨t, ht⟩
        rw [List.cons_append] at ht
        obtain ⟨h1, h2⟩ := List.cons.inj ht
        exact ⟨h1.symm, (ih cs).mpr ⟨t, h2⟩⟩

theorem hasSub_iff (pat : List Char) : ∀ l, hasSub pat l = true ↔ SubChars pat l := by
  intro l
  induction l with
  | nil =>
    rw [show hasSub pat [] = charsStart pat [] from rfl, charsStart_iff]
    constructor
    · rintro ⟨t, ht⟩
      exact ⟨[], t, by simpa using ht⟩
    · rintro ⟨a, b, h⟩
      have := h.symm
      rw [List.append_assoc] at this
      rcases List.append_eq_nil.mp this with ⟨ha, hrest⟩
      rcases List.append_eq_nil.mp hrest with ⟨hp, hb⟩
      exact ⟨b, by rw [hp, hb]; rfl⟩
  | cons c cs ih =>
    rw [show hasSub pat (c :: cs) = (charsStart pat (c :: cs) || hasSub pat cs) from rfl,
      Bool.or_eq_true]
    constructor
    · rintro (h | h)
      · obtain ⟨t, ht⟩ := (charsStart_iff pat _).mp h
        exact ⟨[], t, by simpa using ht⟩
      · obtain ⟨a, b, hab⟩ := ih.mp h
        exact ⟨c :: a, b, by rw [hab]; rfl⟩
    · rintro ⟨a, b, hab⟩
      cases a with
      | nil =>
        exact Or.inl ((charsStart_iff pat _).mpr ⟨b, by simpa using hab⟩)
      | cons a0 as =>
        simp only [List.cons_append] at hab
        obtain ⟨_, h2⟩ := List.cons.inj hab
        exact Or.inr (ih.mpr ⟨as, b, h2⟩)

end Proc

/-- C4 (counterexample): a run with exit code 0, stdout "err" and stderr
"or:" carries the marker "error:" in the combined stdout/stderr, so the
claim calls it a hard failure — but bench_quant checks each stream
separately and treats this run as a success; bench_tf, which concatenates
the streams, treats it as the claim says. -/
theorem run_failure_cex :
    Proc.quantFailed pSplit = false ∧ Proc.tfFailed pSplit = true := by
  exact ⟨by decide, by decide⟩

namespace BenchQuant

theorem benchQuant_ok_stages (runs : ℕ → Proc.RunOut) (ms : ℚ) (v : ℤ × ℚ × ℚ)
    (h : benchQuant runs ms = .ok v) :
    Proc.quantFailed (runs 0) = false ∧ Proc.quantFailed (runs 1) = false ∧
    Proc.quantFailed (runs 2) = false ∧ Proc.quantFailed (runs 3) = false ∧
    ((runs 3).elapsed < ms ∧ 0 < (runs 3).elapsed →
      Proc.quantFailed (runs 4) = false ∧ Proc.quantFailed (runs 5) = false) := by
  simp only [benchQuant] at h
  split_ifs at h
  · exact ⟨by simp_all, by simp_all, by simp_all, by simp_all,
      fun _ => ⟨by simp_all, by simp_all⟩⟩
  · exact ⟨by simp_all, by simp_all, by simp_all, by simp_all,
      fun hgg => absurd hgg (by assumption)⟩

end BenchQuant

namespace BenchTf

theorem bench_operation_ok_stages (name : String) (runs : ℕ → Proc.RunOut)
    (w : ℕ) (b ms : ℚ) (v : ℤ × ℚ)
    (h : bench_operation name runs w b ms = .ok v) :
    Proc.tfFailed (runs w) = false ∧ Proc.tfFailed (runs (w + 2)) = false := by
  simp only [bench_operation] at h
  split_ifs at h
  exact ⟨by simp_all, by simp_all⟩

end BenchTf

/-- C4 (amended): a run is a hard failure iff its exit code is non-zero or
the case-insensitive marker "error:" occurs in the captured output — in
stdout or in stderr checked separately in the quant harness, in the
concatenation of the two streams in the tf harness (the two differ exactly
when the marker spans the stream boundary).  bench_quant checks every run:
a failure at any of its six stages (warmup, probe, warmup2, bench, warmup3,
bench2) aborts the benchmark at once with an error carrying that run's
captured stdout and stderr, and a returned result implies every consulted
run succeeded.  bench_tf checks only its probe and bench measurement runs,
aborting the same way with the failing run's output; its warmup runs are
never consulted, so their outcomes cannot affect the result.  In neither
harness is any run retried and no result is produced on a failure. -/
theorem run_failure_amended :
    (∀ p : Proc.RunOut, Proc.quantFailed p = true ↔
      (p.returncode ≠ 0 ∨ Proc.SubChars Proc.errorMarker (Proc.lowerStr p.stdout) ∨
        Proc.SubChars Proc.errorMarker (Proc.lowerStr p.stderr))) ∧
    (∀ p : Proc.RunOut, Proc.tfFailed p = true ↔
      (p.returncode ≠ 0 ∨ Proc.SubChars Proc.errorMarker
        ((p.stdout ++ p.stderr).data.map Proc.asciiLower))) ∧
    (∀ (runs : ℕ → Proc.RunOut) (ms : ℚ),
      (Proc.quantFailed (runs 0) = true →
        BenchQuant.benchQuant runs ms =
          .error (BenchQuant.failMsg ("ibex failed during warmup:\n") (runs 0))) ∧
      (Proc.quantFailed (runs 0) = false → Proc.quantFailed (runs 1) = true →
        BenchQuant.benchQuant runs ms =
          .error (BenchQuant.failMsg ("ibex failed during probe:\n") (runs 1))) ∧
      (Proc.quantFailed (runs 0) = false → Proc.quantFailed (runs 1) = false →
        Proc.quantFailed (runs 2) = true →
        BenchQuant.benchQuant runs ms =
          .error (BenchQuant.failMsg ("ibex failed during warmup2:\n") (runs 2))) ∧
      (Proc.quantFailed (runs 0) = false → Proc.quantFailed (runs 1) = false →
        Proc.quantFailed (runs 2) = false → Proc.quantFailed (runs 3) = true →
        BenchQuant.benchQuant runs ms =
          .error (BenchQuant.failMsg ("ibex failed:\n") (runs 3))) ∧
      (Proc.quantFailed (runs 0) = false → Proc.quantFailed (runs 1) = false →
        Proc.quantFailed (runs 2) = false → Proc.quantFailed (runs 3) = false →
        (runs 3).elapsed < ms ∧ 0 < (runs 3).elapsed →
        Proc.quantFailed (runs 4) = true →
        BenchQuant.benchQuant runs ms =
          .error (BenchQuant.failMsg ("ibex failed during warmup3:\n") (runs 4))) ∧
      (Proc.quantFailed (runs 0) = false → Proc.quantFailed (runs 1) = false →
        Proc.quantFailed (runs 2) = false → Proc.quantFailed (runs 3) = false →
        (runs 3).elapsed < ms ∧ 0 < (runs 3).elapsed →
        Proc.quantFailed (runs 4) = false → Proc.quantFailed (runs 5) = true →
        BenchQuant.benchQuant runs ms =
          .error (BenchQuant.failMsg ("ibex failed:\n") (runs 5))) ∧
      (∀ v, BenchQuant.benchQuant runs ms = .ok v →
        Proc.quantFailed (runs 0) = false ∧ Proc.quantFailed (runs 1) = false ∧
        Proc.quantFailed (runs 2) = false ∧ Proc.quantFailed (runs 3) = false ∧
        ((runs 3).elapsed < ms ∧ 0 < (runs 3).elapsed →
          Proc.quantFailed (runs 4) = false ∧ Proc.quantFailed (runs 5) = false))) ∧
    (∀ (name : String) (runs : ℕ → Proc.RunOut) (w : ℕ) (b ms : ℚ),
      (Proc.tfFailed (runs w) = true →
        BenchTf.bench_operation name runs w b ms =
          .error (name ++ " probe failed:\n" ++ (runs w).stdout ++ "\n" ++
            (runs w).stderr)) ∧
      (Proc.tfFailed (runs w) = false → Proc.tfFailed (runs (w + 2)) = true →
        BenchTf.bench_operation name runs w b ms =
          .error (name ++ " bench failed:\n" ++ (runs (w + 2)).stdout ++ "\n" ++
            (runs (w + 2)).stderr)) ∧
      (∀ v, BenchTf.bench_operation name runs w b ms = .ok v →
        Proc.tfFailed (runs w) = false ∧ Proc.tfFailed (runs (w + 2)) = false)) ∧
    (∀ (name : String) (runs runs2 : ℕ → Proc.RunOut) (w : ℕ) (b ms : ℚ),
      runs w = runs2 w → runs (w + 2) = runs2 (w + 2) →
      BenchTf.bench_operation name runs w b ms =
        BenchTf.bench_operation name runs2 w b ms) := by
  refine ⟨fun p => ?_, fun p => ?_, fun runs ms => ?_, fun name runs w b ms => ?_,
    fun name runs runs2 w b ms h1 h2 => ?_⟩
  · simp only [Proc.quantFailed, Bool.or_eq_true, bne_iff_ne, Proc.hasSub_iff]
    tauto
  · simp only [Proc.tfFailed, Bool.or_eq_true, bne_iff_ne, Proc.hasSub_iff]
  · refine ⟨fun h0 => ?_, fun h0 h1 => ?_, fun h0 h1 h2 => ?_, fun h0 h1 h2 h3 => ?_,
      fun h0 h1 h2 h3 hg h4 => ?_, fun h0 h1 h2 h3 hg h4 h5 => ?_,
      BenchQuant.benchQuant_ok_stages runs ms⟩
    · simp only [BenchQuant.benchQuant, h0, if_true]
    · simp only [BenchQuant.benchQuant, h0, Bool.false_eq_true, if_false, h1, if_true]
    · simp only [BenchQuant.benchQuant, h0, h1, Bool.false_eq_true, if_false, h2,
        if_true]
    · simp only [BenchQuant.benchQuant, h0, h1, h2, Bool.false_eq_true, if_false, h3,
        if_true]
    · simp only [BenchQuant.benchQuant, h0, h1, h2, h3, Bool.false_eq_true, if_false,
        if_pos hg, h4, if_true]
    · simp only [BenchQuant.benchQuant, h0, h1, h2, h3, h4, Bool.false_eq_true,
        if_false, if_pos hg, h5, if_true]
  · refine ⟨fun hp => ?_, fun hp hb => ?_,
      BenchTf.bench_operation_ok_stages name runs w b ms⟩
    · simp only [BenchTf.bench_operation, hp, if_true]
    · simp only [BenchTf.bench_operation, hp, Bool.false_eq_true, if_false, hb,
        if_true]
  · simp only [BenchTf.bench_operation, h1, h2]

/-- Witness for the abort clauses of `run_failure_amended`: an oracle whose
probe run reports "Error:" makes benchQuant abort with the probe error, and
an all-failing oracle makes bench_operation abort with the probe error. -/
theorem run_failure_amended_witness :
    BenchQuant.benchQuant runsProbeBad 3 =
      .error (BenchQuant.failMsg ("ibex failed during probe:\n") (runsProbeBad 1)) ∧
    BenchTf.bench_operation ("tf_lag1") runsBad 1 0 2 =
      .error ("tf_lag1" ++ " probe failed:\n" ++ (runsBad 1).stdout ++ "\n" ++
        (runsBad 1).stderr) :=
  ⟨(run_failure_amended.2.2.1 runsProbeBad 3).2.1 (by decide) (by decide),
   (run_failure_amended.2.2.2.1 ("tf_lag1") runsBad 1 0 2).1 (by decide)⟩

/-- C9: in bench_ibex_compute_only, when every run succeeds, if the measured
total at the calibrated repeat count falls short of min_seconds (and is
positive) the repeat count is multiplied by ceil(min_seconds / total) and
exactly one further measurement (runs 5) is taken; otherwise the first
measurement stands; in both cases avg_ms = 1000 * final_total / final_repeats. -/
theorem bench_quant_scaleup (runs : ℕ → Proc.RunOut) (ms : ℚ)
    (hok : ∀ i, i ≤ 5 → Proc.quantFailed (runs i) = false) :
    ((runs 3).elapsed < ms ∧ 0 < (runs 3).elapsed →
      BenchQuant.benchQuant runs ms = .ok
        (BenchQuant.calibrated_repeats (runs 1).elapsed ms * ⌈ms / (runs 3).elapsed⌉,
         (runs 5).elapsed,
         1000 * (runs 5).elapsed /
           ((BenchQuant.calibrated_repeats (runs 1).elapsed ms *
             ⌈ms / (runs 3).elapsed⌉ : ℤ) : ℚ))) ∧
    (¬((runs 3).elapsed < ms ∧ 0 < (runs 3).elapsed) →
      BenchQuant.benchQuant runs ms = .ok
        (BenchQuant.calibrated_repeats (runs 1).elapsed ms, (runs 3).elapsed,
         1000 * (runs 3).elapsed /
           ((BenchQuant.calibrated_repeats (runs 1).elapsed ms : ℤ) : ℚ))) := by
  have h0 := hok 0 (by norm_num)
  have h1 := hok 1 (by norm_num)
  have h2 := hok 2 (by norm_num)
  have h3 := hok 3 (by norm_num)
  have h4 := hok 4 (by norm_num)
  have h5 := hok 5 (by norm_num)
  constructor
  · intro hcond
    have hceil : (1 : ℤ) ≤ ⌈ms / (runs 3).elapsed⌉ :=
      Int.one_le_ceil_iff.mpr (div_pos (lt_trans hcond.2 hcond.1) hcond.2)
    simp only [BenchQuant.benchQuant, h0, h1, h2, h3, h4, h5, Bool.false_eq_true,
      if_false, if_pos hcond, max_eq_left hceil]
  · intro hcond
    simp only [BenchQuant.benchQuant, h0, h1, h2, h3, Bool.false_eq_true,
      if_false, if_neg hcond]

/-- Witness for `bench_quant_scaleup` on the all-success oracle `runsW` with
min_seconds = 2: the first bench run takes 1/2 s, so the scale-up branch is
taken and the re-measured run (3 s) determines the result. -/
theorem bench_quant_scaleup_witness :
    BenchQuant.benchQuant runsW 2 = .ok
      (BenchQuant.calibrated_repeats (runsW 1).elapsed 2 * ⌈(2 : ℚ) / (runsW 3).elapsed⌉,
       (runsW 5).elapsed,
       1000 * (runsW 5).elapsed /
         ((BenchQuant.calibrated_repeats (runsW 1).elapsed 2 *
           ⌈(2 : ℚ) / (runsW 3).elapsed⌉ : ℤ) : ℚ)) :=
  (bench_quant_scaleup runsW 2 (fun i _ => by
    show Proc.quantFailed (runsW i) = false
    unfold runsW Proc.quantFailed
    split <;> rfl)).1 (by norm_num [runsW])

namespace BenchQuant

open Proc

theorem profRunsLoop_ok (sc : ℕ) :
    ∀ (l : List RunOut) (acc : ℚ), (∀ p ∈ l, quantFailed p = false) →
      profRunsLoop sc l acc = .ok (acc + (l.map RunOut.elapsed).sum) := by
  intro l
  induction l with
  | nil => intro acc _; simp [profRunsLoop]
  | cons p l ih =>
    intro acc h
    have hp := h p (List.mem_cons_self _ _)
    simp only [profRunsLoop, hp, Bool.false_eq_true, if_false]
    rw [ih (acc + p.elapsed) fun x hx => h x (List.mem_cons_of_mem _ hx)]
    simp only [List.map_cons, List.sum_cons]
    ring_nf

theorem profRunsLoop_ok_all (sc : ℕ) :
    ∀ (l : List RunOut) (acc t : ℚ), profRunsLoop sc l acc = .ok t →
      ∀ p ∈ l, quantFailed p = false := by
  intro l
  induction l with
  | nil => intro _ _ _ p hp; simp at hp
  | cons p l ih =>
    intro acc t h x hx
    by_cases hf : quantFailed p = true
    · rw [show profRunsLoop sc (p :: l) acc = .error (profFailMsg sc p) from by
        simp [profRunsLoop, hf]] at h
      exact absurd h (by simp)
    · have hpf : quantFailed p = false := by
        cases hq : quantFailed p
        · rfl
        · exact absurd hq hf
      rcases List.mem_cons.mp hx with hh | hh
      · subst hh; exact hpf
      · refine ih (acc + p.elapsed) t ?_ x hh
        rw [show profRunsLoop sc (p :: l) acc =
          profRunsLoop sc l (acc + p.elapsed) from by
            simp [profRunsLoop, hpf]] at h
        exact h

theorem profileAux_all_ok (oracle : ℕ → ℕ → RunOut) (runs rep : ℤ)
    (hok : ∀ sc r, quantFailed (oracle sc r) = false) :
    ∀ (steps : List (ℕ × String)) (prev : ℚ),
      profileAux oracle runs rep steps prev = .ok (rowsOf oracle runs rep steps prev) := by
  intro steps
  induction steps with
  | nil => intro prev; rfl
  | cons s rest ih =>
    intro prev
    obtain ⟨sc, lab⟩ := s
    have hloop := profRunsLoop_ok sc ((List.range (runsPerStep runs)).map (oracle sc)) 0
      (by
        intro p hp
        obtain ⟨r, _, rfl⟩ := List.mem_map.mp hp
        exact hok sc r)
    have hsum : (0 : ℚ) + (((List.range (runsPerStep runs)).map (oracle sc)).map
        RunOut.elapsed).sum =
        ((List.range (runsPerStep runs)).map fun r => (oracle sc r).elapsed).sum := by
      rw [zero_add, List.map_map]
      rfl
    rw [hsum] at hloop
    simp only [profileAux, hloop, ih]
    rfl

theorem profileAux_ok_all (oracle : ℕ → ℕ → RunOut) (runs rep : ℤ) :
    ∀ (steps : List (ℕ × String)) (prev : ℚ) (rows : List ProfRow),
      profileAux oracle runs rep steps prev = .ok rows →
      ∀ p ∈ steps, ∀ r < runsPerStep runs, quantFailed (oracle p.1 r) = false := by
  intro steps
  induction steps with
  | nil => intro _ _ _ p hp; simp at hp
  | cons s rest ih =>
    intro prev rows h p hp r hr
    obtain ⟨sc, lab⟩ := s
    simp only [profileAux] at h
    cases hl : profRunsLoop sc ((List.range (runsPerStep runs)).map (oracle sc)) 0 with
    | error e => rw [hl] at h; exact absurd h (by simp)
    | ok total =>
      rw [hl] at h
      simp only [] at h
      cases ha : profileAux oracle runs rep rest (1000 * total / profDenom runs rep) with
      | error e => rw [ha] at h; exact absurd h (by simp)
      | ok tail =>
        rcases List.mem_cons.mp hp with hph | hph
        · subst hph
          exact profRunsLoop_ok_all sc _ 0 total hl (oracle sc r)
            (List.mem_map_of_mem _ (List.mem_range.mpr hr))
        · exact ih (1000 * total / profDenom runs rep) tail ha p hph r hr

theorem rowsOf_eq_specRows (oracle : ℕ → ℕ → RunOut) (runs rep : ℤ)
    (hr : 1 ≤ runs) (hp : 1 ≤ rep) :
    ∀ (steps : List (ℕ × String)) (prev : ℚ),
      rowsOf oracle runs rep steps prev = specRows oracle runs rep steps prev := by
  have hcum : ∀ sc, cumOf oracle runs rep sc = specCum oracle runs rep sc := by
    intro sc
    unfold cumOf specCum runsPerStep profDenom
    rw [max_eq_left hr, max_eq_left hp]
  intro steps
  induction steps with
  | nil => intro _; rfl
  | cons s rest ih =>
    intro prev
    obtain ⟨sc, lab⟩ := s
    simp only [rowsOf, specRows, hcum, ih]

end BenchQuant

/-- C5: for a profile over N ordered steps with runs_per_step ≥ 1 and
inner_repeat ≥ 1, if every run succeeds the profiler returns one row per
step_count = 1..N in order with cumulative_ms = 1000 * sum_elapsed /
(runs_per_step * inner_repeat) and delta_ms = cumulative_ms minus the
previous row's cumulative_ms (0 before the first row); and whenever the
profiler does return rows, every run of every step succeeded — so any
failure yields an error and no partial row sequence. -/
theorem profile_steps_spec (oracle : ℕ → ℕ → Proc.RunOut) (labels : List String)
    (runs rep : ℤ) (hr : 1 ≤ runs) (hp : 1 ≤ rep) :
    ((∀ sc r, Proc.quantFailed (oracle sc r) = false) →
      BenchQuant.profile_ibex_steps oracle labels runs rep =
        .ok (BenchQuant.specRows oracle runs rep (BenchQuant.mkSteps labels) 0)) ∧
    (∀ rows, BenchQuant.profile_ibex_steps oracle labels runs rep = .ok rows →
      ∀ p ∈ BenchQuant.mkSteps labels, ∀ r < runs.toNat,
        Proc.quantFailed (oracle p.1 r) = false) := by
  constructor
  · intro hok
    rw [BenchQuant.profile_ibex_steps, BenchQuant.profileAux_all_ok oracle runs rep hok,
      BenchQuant.rowsOf_eq_specRows oracle runs rep hr hp]
  · intro rows h p hp2 r hr2
    have hlt : r < BenchQuant.runsPerStep runs := by
      rw [BenchQuant.runsPerStep, max_eq_left hr]; exact hr2
    exact BenchQuant.profileAux_ok_all oracle runs rep _ 0 rows h p hp2 r hlt

/-- Witness for `profile_steps_spec` on the constant-success oracle `profW`
with two steps and runs = repeat = 1. -/
theorem profile_steps_spec_witness :
    (1 : ℤ) ≤ 1 ∧
    BenchQuant.profile_ibex_steps profW ["a", "b"] 1 1 =
      .ok (BenchQuant.specRows profW 1 1 (BenchQuant.mkSteps ["a", "b"]) 0) :=
  ⟨le_refl 1,
    (profile_steps_spec profW ["a", "b"] 1 1 (le_refl 1) (le_refl 1)).1
      (fun _ _ => rfl)⟩

/-- C10: the step profiler clamps its runs and repeat parameters to at least
1 before use — the per-step run count is ≥ 1 and the cumulative_ms
denominator is ≥ 1 for every input, including runs ≤ 0 and repeat ≤ 0 (so
the division is never by zero); concretely, profiling one step with
runs = 0 and repeat = -3 still executes one 2-second run and reports
cumulative_ms = delta_ms = 2000. -/
theorem profile_clamp_safety :
    (∀ runs rep : ℤ, 1 ≤ BenchQuant.runsPerStep runs ∧
      (1 : ℚ) ≤ BenchQuant.profDenom runs rep) ∧
    BenchQuant.profile_ibex_steps profW ["a"] 0 (-3) =
      .ok [⟨1, "a", 2000, 2000⟩] := by
  constructor
  · intro runs rep
    constructor
    · have := le_max_right runs 1
      rw [BenchQuant.runsPerStep]
      omega
    · rw [BenchQuant.profDenom]
      have h1 : (1 : ℤ) ≤ max runs 1 := le_max_right _ _
      have h2 : (1 : ℤ) ≤ max rep 1 := le_max_right _ _
      have : (1 : ℤ) ≤ max runs 1 * max rep 1 := by nlinarith
      exact_mod_cast this
  · rw [BenchQuant.profile_ibex_steps,
      BenchQuant.profileAux_all_ok profW 0 (-3) (fun _ _ => rfl),
      show BenchQuant.mkSteps ["a"] = [(1, "a")] from rfl]
    simp only [BenchQuant.rowsOf]
    have hcum : BenchQuant.cumOf profW 0 (-3) 1 = 2000 := by
      rw [BenchQuant.cumOf,
        show BenchQuant.runsPerStep 0 = 1 from rfl,
        show BenchQuant.profDenom 0 (-3) = 1 from by
          rw [BenchQuant.profDenom]; norm_num]
      simp [profW]
      norm_num
    rw [hcum]
    norm_num

namespace PyTimer

theorem sum_range_split (f : ℕ → ℚ) (w : ℕ) :
    ∀ n, (∑ i in Finset.range (w + n), f i) =
      (∑ i in Finset.range w, f i) + ∑ i in Finset.range n, f (w + i) := by
  intro n
  induction n with
  | zero => simp
  | succ n ih =>
    rw [show w + (n + 1) = (w + n) + 1 from rfl, Finset.sum_range_succ,
      Finset.sum_range_succ, ih]
    ring

theorem runN_opStep (d : ℕ → ℚ) (res : ℕ → ℕ) :
    ∀ (m k : ℕ) (t : ℚ) (r : Option ℕ),
      runN (opStep d res) m (k, t) r =
        ((k + m, t + ∑ i in Finset.range m, d (k + i)),
         if m = 0 then r else some (res (k + m - 1))) := by
  intro m
  induction m with
  | zero => intro k t r; simp [runN]
  | succ m ih =>
    intro k t r
    have hsum : ∑ i in Finset.range (m + 1), d (k + i) =
        d k + ∑ i in Finset.range m, d (k + 1 + i) := by
      rw [Finset.sum_range_succ']
      rw [add_comm]
      congr 1
      refine Finset.sum_congr rfl fun i _ => ?_
      congr 1
      omega
    simp only [runN, opStep]
    rw [ih (k + 1) (t + d k) (some (res k))]
    refine congrArg₂ Prod.mk (congrArg₂ Prod.mk (by omega) ?_) ?_
    · rw [hsum]; ring
    · by_cases hm : m = 0
      · subst hm; simp
      · rw [if_neg hm, if_neg (by omega)]
        congr 2
        omega

theorem timer_opStep (d : ℕ → ℚ) (res : ℕ → ℕ) (w n : ℕ) (hn : 1 ≤ n) :
    timer (opStep d res) stateClock w n (0, 0) =
      ((w + n, ∑ i in Finset.range (w + n), d i),
       1000 * (∑ i in Finset.range n, d (w + i)) / (n : ℚ),
       some (res (w + n - 1))) := by
  have hn0 : ¬(n = 0) := by omega
  simp only [timer, runN_opStep, stateClock, hn0, if_false, zero_add, Nat.zero_add]
  refine congrArg₂ Prod.mk (congrArg₂ Prod.mk rfl ?_) (congrArg₂ Prod.mk ?_ rfl)
  · exact (sum_range_split d w n).symm
  · ring

theorem polarsBench_opStep (d : ℕ → ℚ) (res : ℕ → ℕ) (w n : ℕ) (hn : 1 ≤ n) :
    polarsBench (opStep d res) stateClock w n (0, 0) =
      ((w + n, ∑ i in Finset.range (w + n), d i),
       1000 * (∑ i in Finset.range n, d (w + i)),
       1000 * (∑ i in Finset.range n, d (w + i)) / (n : ℚ),
       res (w + n - 1)) := by
  have hn0 : ¬(n = 0) := by omega
  simp only [polarsBench, runN_opStep, stateClock, hn0, if_false, zero_add,
    Nat.zero_add, Option.getD_some]
  refine congrArg₂ Prod.mk (congrArg₂ Prod.mk rfl ?_)
    (congrArg₂ Prod.mk ?_ (congrArg₂ Prod.mk ?_ rfl))
  · exact (sum_range_split d w n).symm
  · ring
  · ring

end PyTimer

/-- C6: the timer runs the operation warmup_count times discarding results,
then iteration_count more times with one clock read before and one after the
whole batch, so the elapsed time is exactly the sum of the n timed calls'
durations (warmups excluded); it returns avg_ms = elapsed * 1000 / n and the
result of the last execution.  The same holds for bench_polars.bench, which
additionally reports total_ms and the last result's row count. -/
theorem timer_spec (d : ℕ → ℚ) (res : ℕ → ℕ) (w n : ℕ) (hn : 1 ≤ n) :
    PyTimer.timer (PyTimer.opStep d res) PyTimer.stateClock w n (0, 0) =
      ((w + n, ∑ i in Finset.range (w + n), d i),
       1000 * (∑ i in Finset.range n, d (w + i)) / (n : ℚ),
       some (res (w + n - 1))) ∧
    PyTimer.polarsBench (PyTimer.opStep d res) PyTimer.stateClock w n (0, 0) =
      ((w + n, ∑ i in Finset.range (w + n), d i),
       1000 * (∑ i in Finset.range n, d (w + i)),
       1000 * (∑ i in Finset.range n, d (w + i)) / (n : ℚ),
       res (w + n - 1)) :=
  ⟨PyTimer.timer_opStep d res w n hn, PyTimer.polarsBench_opStep d res w n hn⟩

/-- Witness for `timer_spec` with warmup 1, iterations 2, constant 1 s calls. -/
theorem timer_spec_witness :
    1 ≤ 2 ∧
    PyTimer.timer (PyTimer.opStep dW resW) PyTimer.stateClock 1 2 (0, 0) =
      ((1 + 2, ∑ i in Finset.range (1 + 2), dW i),
       1000 * (∑ i in Finset.range 2, dW (1 + i)) / (2 : ℚ),
       some (resW (1 + 2 - 1))) :=
  ⟨by norm_num, (timer_spec dW resW 1 2 (by norm_num)).1⟩

/-- C7 (counterexample): bench_tf subtracts the separately-measured baseline
overhead from the measured elapsed time; with a bench elapsed of 1 s (≥ 0)
and a baseline measurement of 2 s (≥ 0, i.e. baseline_ms = 2 * 1000) over 3
repeats, avg_ms = (1000 - 2000) / 3 < 0 even though every individual elapsed
measurement is non-negative — the claimed invariant fails for bench_tf. -/
theorem avg_nonneg_cex :
    (0 : ℚ) ≤ 1 ∧ (0 : ℚ) ≤ 2 ∧ BenchTf.avg_ms 1 (2 * 1000) 3 < 0 := by
  refine ⟨by norm_num, by norm_num, ?_⟩
  rw [BenchTf.avg_ms, BenchTf.net_ms]
  norm_num

/-- C7 (amended): avg_latency_ms is non-negative for the in-process timer
(whenever every call duration is ≥ 0) and for bench_quant's subprocess
benchmark (whenever every run's elapsed is ≥ 0); bench_tf's
baseline-subtracted average can be negative when the baseline measurement
exceeds the bench elapsed, per the counterexample. -/
theorem avg_nonneg_amended :
    (∀ (d : ℕ → ℚ) (res : ℕ → ℕ) (w n : ℕ), 1 ≤ n → (∀ i, 0 ≤ d i) →
      0 ≤ (PyTimer.timer (PyTimer.opStep d res) PyTimer.stateClock w n (0, 0)).2.1) ∧
    (∀ (runs : ℕ → Proc.RunOut) (ms : ℚ) (r : ℤ) (t a : ℚ),
      (∀ i, 0 ≤ (runs i).elapsed) →
      BenchQuant.benchQuant runs ms = .ok (r, t, a) → 0 ≤ a) := by
  constructor
  · intro d res w n hn hd
    rw [PyTimer.timer_opStep d res w n hn]
    refine div_nonneg (mul_nonneg (by norm_num) ?_) (Nat.cast_nonneg n)
    exact Finset.sum_nonneg fun i _ => hd _
  · intro runs ms r t a hel h
    have hc1 : (0 : ℤ) ≤ BenchQuant.calibrated_repeats (runs 1).elapsed ms :=
      le_trans zero_le_one (le_max_left _ _)
    simp only [BenchQuant.benchQuant] at h
    split_ifs at h
    · simp only [Except.ok.injEq, Prod.mk.injEq] at h
      obtain ⟨-, -, h3⟩ := h
      subst h3
      refine div_nonneg (mul_nonneg (by norm_num) (hel _)) ?_
      exact_mod_cast mul_nonneg hc1 (le_trans zero_le_one (le_max_right _ _))
    · simp only [Except.ok.injEq, Prod.mk.injEq] at h
      obtain ⟨-, -, h3⟩ := h
      subst h3
      refine div_nonneg (mul_nonneg (by norm_num) (hel _)) ?_
      exact_mod_cast hc1

/-- Witness for `avg_nonneg_amended`: the timer's average with unit
durations is non-negative, and benchQuant's returned average on the
all-success oracle `runsW` is non-negative. -/
theorem avg_nonneg_amended_witness :
    0 ≤ (PyTimer.timer (PyTimer.opStep dW resW) PyTimer.stateClock 1 2 (0, 0)).2.1 ∧
    0 ≤ (1000 * (runsW 5).elapsed /
      ((BenchQuant.calibrated_repeats (runsW 1).elapsed 2 *
        ⌈(2 : ℚ) / (runsW 3).elapsed⌉ : ℤ) : ℚ)) := by
  constructor
  · exact avg_nonneg_amended.1 dW resW 1 2 (by norm_num) (fun i => by norm_num [dW])
  · have hqb := (bench_quant_scaleup runsW 2 (fun i _ => by
      show Proc.quantFailed (runsW i) = false
      unfold runsW Proc.quantFailed
      split <;> rfl)).1 (by norm_num [runsW])
    exact avg_nonneg_amended.2 runsW 2 _ _ _
      (fun i => by
        show (0 : ℚ) ≤ (runsW i).elapsed
        unfold runsW
        simp only []
        split <;> [norm_num; skip]
        split <;> norm_num) hqb

/-- C8: build discovery probes exactly the two candidates build-release then
build in that order, returns the first whose tools/ibex binary exists, and
when neither contains it both harnesses fail with their no-build-found error
(raised while resolving configuration, before any benchmark subprocess or
measurement); bench_quant additionally returns an explicitly requested
directory unchecked. -/
theorem build_dir_discovery (ex : String → Bool) :
    Proc.buildCandidates.length = 2 ∧
    (ex (Proc.ibexBinPath ("build-release")) = true →
      BenchTf.detect_build_dir ex = .ok ("build-release") ∧
      BenchQuant.detect_build_dir none ex = .ok ("build-release")) ∧
    (ex (Proc.ibexBinPath ("build-release")) = false →
      ex (Proc.ibexBinPath ("build")) = true →
      BenchTf.detect_build_dir ex = .ok ("build") ∧
      BenchQuant.detect_build_dir none ex = .ok ("build")) ∧
    (ex (Proc.ibexBinPath ("build-release")) = false →
      ex (Proc.ibexBinPath ("build")) = false →
      BenchTf.detect_build_dir ex =
        .error ("ibex binary not found — run cmake --build build-release first") ∧
      BenchQuant.detect_build_dir none ex =
        .error ("could not find ibex binary (expected build/tools/ibex or build-release/tools/ibex)")) ∧
    (∀ req : String, BenchQuant.detect_build_dir (some req) ex = .ok req) := by
  refine ⟨rfl, fun h1 => ?_, fun h1 h2 => ?_, fun h1 h2 => ?_, fun req => rfl⟩
  · constructor <;>
      simp [BenchTf.detect_build_dir, BenchQuant.detect_build_dir,
        Proc.buildCandidates, List.find?, h1]
  · constructor <;>
      simp [BenchTf.detect_build_dir, BenchQuant.detect_build_dir,
        Proc.buildCandidates, List.find?, h1, h2]
  · constructor <;>
      simp [BenchTf.detect_build_dir, BenchQuant.detect_build_dir,
        Proc.buildCandidates, List.find?, h1, h2]

/-- Witness for `build_dir_discovery` on a filesystem with no build dirs:
both harnesses fail with their no-build-found errors. -/
theorem build_dir_discovery_witness :
    BenchTf.detect_build_dir exW =
      .error ("ibex binary not found — run cmake --build build-release first") ∧
    BenchQuant.detect_build_dir none exW =
      .error ("could not find ibex binary (expected build/tools/ibex or build-release/tools/ibex)") :=
  (build_dir_discovery exW).2.2.2.1 rfl rfl
